import Mathlib

/-!
Verification of the stackset-controller reconciliation engine
(controller/stackset.go) against its natural-language specification.

Go maps are modelled as association lists with first-match lookup; map
equality (Go reflect/semantic DeepEqual on maps) is modelled as lookup
equivalence, and map assignment as erase-then-append.  Kubernetes object
UIDs are modelled as strings.  External API calls are modelled by explicit
outcome scripts passed to the embedded functions, so that every control
path of the Go code corresponds to a concrete script.
-/

namespace StacksetController

/-- UID models k8s types.UID (an opaque string). -/
abbrev UID := String

/-- Association list standing for a Go map with string keys. -/
abbrev AList (α : Type) := List (String × α)

/-- Association map with string keys and string values, modelling a Go
map[string]string such as labels and the metadata annotations map. -/
abbrev AMap := AList String

/-- First-match lookup, the semantics of Go map indexing. -/
def alook {α : Type} : AList α → String → Option α
  | [], _ => none
  | (k2, v) :: rest, k => if k2 = k then some v else alook rest k

/-- Removal of a key, the semantics of the Go delete builtin. -/
def aerase {α : Type} (m : AList α) (k : String) : AList α :=
  m.filter (fun p => p.1 != k)

/-- Assignment m[k] = v, modelled as erase-then-append. -/
def aput {α : Type} (m : AList α) (k : String) (v : α) : AList α :=
  aerase m k ++ [(k, v)]

/-- Lookup-based map equality: the semantics of DeepEqual on Go maps. -/
def amapEq {α : Type} [DecidableEq α] (m1 m2 : AList α) : Bool :=
  m1.all (fun p => alook m1 p.1 == alook m2 p.1) &&
    m2.all (fun p => alook m1 p.1 == alook m2 p.1)

/-! ## C1: ownership (hasOwnership) and the watched store -/

/-- Annotation key stackset-controller.zalando.org/controller. -/
def StacksetControllerControllerAnnotationKey : String :=
  "stackset-controller.zalando.org/controller"

/-- Annotation key stackset-controller.zalando.org/updated-timestamp. -/
def ControllerLastUpdatedAnnotationKey : String :=
  "stackset-controller.zalando.org/updated-timestamp"

/-- Annotation key alpha.stackset-controller.zalando.org/prescale-stacks. -/
def PrescaleStacksAnnotationKey : String :=
  "alpha.stackset-controller.zalando.org/prescale-stacks"

/-- Annotation key alpha.stackset-controller.zalando.org/reset-hpa-min-replicas-delay. -/
def ResetHPAMinReplicasDelayAnnotationKey : String :=
  "alpha.stackset-controller.zalando.org/reset-hpa-min-replicas-delay"

/-- A StackSet as far as ownership and store admission are concerned.
The annotations field is an Option because a Go map can be nil, and
hasOwnership tests Annotations != nil explicitly. -/
structure StackSet where
  uid : UID
  annotations : Option AMap
deriving DecidableEq

/-- hasOwnership from controller/stackset.go: the controller owns the
stackset when the controller annotation value equals ControllerID, or when
no annotation is set and ControllerID is empty. -/
def hasOwnership (controllerID : String) (stackset : StackSet) : Bool :=
  match stackset.annotations with
  | some anns =>
    match alook anns StacksetControllerControllerAnnotationKey with
    | some owner => owner == controllerID
    | none => controllerID == ""
  | none => controllerID == ""

/-- The controller annotation value carried by a StackSet, none when the
annotations map is nil or lacks the key. -/
def controllerAnnotationValue (stackset : StackSet) : Option String :=
  match stackset.annotations with
  | some anns => alook anns StacksetControllerControllerAnnotationKey
  | none => none

/-- One message on the stacksetEvents channel. -/
structure StacksetEvent where
  deleted : Bool
  stackSet : StackSet
deriving DecidableEq

/-- The watched-object store stacksetStore, keyed by UID. -/
abbrev Store := AList StackSet

/-- The stacksetEvents branch of the Run main loop: admission, update and
removal of entries in the watched store. -/
def processStacksetEvent (controllerID : String) (store : Store)
    (e : StacksetEvent) : Store :=
  let ss := e.stackSet
  match alook store ss.uid with
  | some _ =>
    if e.deleted || !(hasOwnership controllerID ss) then aerase store ss.uid
    else aput store ss.uid ss
  | none =>
    if !(hasOwnership controllerID ss) then store
    else aput store ss.uid ss

/-! ## C2 / C8: owner resolution and resource collection -/

/-- The metadata fields read during collection.  Owner references are kept
as the list of their UIDs. -/
structure ObjectMeta where
  name : String
  uid : UID
  ownerReferences : List UID
deriving DecidableEq

/-- getOwnerUID from controller/stackset.go: an owner UID is produced
exactly when the object carries exactly one owner reference. -/
def getOwnerUID (objectMeta : ObjectMeta) : Option UID :=
  match objectMeta.ownerReferences with
  | [u] => some u
  | _ => none

/-- Modelled from the spec: core.SegmentSuffix, the name-suffix convention
splitting ingress/route objects into main versus traffic-segment slots
(defined in pkg/core, outside the sources at hand). -/
def SegmentSuffix : String := "-traffic-segment"

/-- An Ingress object, reduced to the metadata the collector reads. -/
structure Ingress where
  meta : ObjectMeta
deriving DecidableEq

/-- A Deployment object, reduced to the metadata the collector reads. -/
structure Deployment where
  meta : ObjectMeta
deriving DecidableEq

/-- A Service object, reduced to the metadata the collector reads. -/
structure Service where
  meta : ObjectMeta
deriving DecidableEq

/-- A HorizontalPodAutoscaler object, reduced to the metadata read. -/
structure HPA where
  meta : ObjectMeta
deriving DecidableEq

/-- core.StackResources: the per-stack slots the collectors fill. -/
structure StackResources where
  ingress : Option Ingress := none
  ingressSegment : Option Ingress := none
  deployment : Option Deployment := none
  service : Option Service := none
  hpa : Option HPA := none
deriving DecidableEq

/-- core.StackContainer, reduced to the fields the controller code reads:
the stack UID keys the StackContainers map; pendingRemoval is the
tick-scoped deletion flag. -/
structure StackContainer where
  uid : UID
  pendingRemoval : Bool := false
  resources : StackResources := {}
deriving DecidableEq

/-- core.StackSetContainer, reduced to the fields the collectors touch.
The StackContainers map is modelled as a list in iteration order. -/
structure StackSetContainer where
  uid : UID
  ingress : Option Ingress := none
  stackContainers : List StackContainer
deriving DecidableEq

/-- True when some stack container in the list has the given UID as key:
the map membership test stackset.StackContainers[uid]. -/
def anyStackUid (uid : UID) (scs : List StackContainer) : Bool :=
  scs.any (fun sc => sc.uid == uid)

/-- True when the stack container holds a collected deployment whose UID
is the given one: the historical deployment-ownership fallback test. -/
def deploymentUidIs (uid : UID) (sc : StackContainer) : Bool :=
  match sc.resources.deployment with
  | some d => d.meta.uid == uid
  | none => false

/-- True when some stack container in the list passes the deployment
fallback test. -/
def anyDeployUid (uid : UID) (scs : List StackContainer) : Bool :=
  scs.any (deploymentUidIs uid)

/-- Update the stack container keyed by the given UID (first occurrence,
matching unique Go map keys). -/
def setStackAtUid (uid : UID) (upd : StackContainer → StackContainer) :
    List StackContainer → List StackContainer
  | [] => []
  | sc :: rest =>
    if sc.uid == uid then upd sc :: rest
    else sc :: setStackAtUid uid upd rest

/-- Update the first stack container whose collected deployment carries
the given UID. -/
def setStackAtDeploy (uid : UID) (upd : StackContainer → StackContainer) :
    List StackContainer → List StackContainer
  | [] => []
  | sc :: rest =>
    if deploymentUidIs uid sc then upd sc :: rest
    else sc :: setStackAtDeploy uid upd rest

/-- The shared attachment walk of collectServices and collectHPAs: per
stackset, first the direct StackContainers map lookup, then the
deployment-UID fallback within the same stackset, then the next
stackset; the first hit receives the object and the walk stops. -/
def attachByUID (uid : UID) (upd : StackContainer → StackContainer) :
    List StackSetContainer → List StackSetContainer
  | [] => []
  | ssc :: rest =>
    if anyStackUid uid ssc.stackContainers then
      { ssc with stackContainers := setStackAtUid uid upd ssc.stackContainers } :: rest
    else if anyDeployUid uid ssc.stackContainers then
      { ssc with stackContainers := setStackAtDeploy uid upd ssc.stackContainers } :: rest
    else ssc :: attachByUID uid upd rest

/-- Store a service into a stack container slot. -/
def putService (svc : Service) (sc : StackContainer) : StackContainer :=
  { sc with resources := { sc.resources with service := some svc } }

/-- Store an HPA into a stack container slot. -/
def putHPA (hpa : HPA) (sc : StackContainer) : StackContainer :=
  { sc with resources := { sc.resources with hpa := some hpa } }

/-- Processing of one listed service by collectServices: owner
resolution via getOwnerUID, then the direct-or-deployment attachment
walk; zero or multiple owner references leave every container unchanged. -/
def collectServiceOne (svc : Service) (stacksets : List StackSetContainer) :
    List StackSetContainer :=
  match getOwnerUID svc.meta with
  | none => stacksets
  | some uid => attachByUID uid (putService svc) stacksets

/-- collectServices over the whole listing. -/
def collectServices (services : List Service)
    (stacksets : List StackSetContainer) : List StackSetContainer :=
  services.foldl (fun acc svc => collectServiceOne svc acc) stacksets

/-- Processing of one listed HPA by collectHPAs, structurally identical
to collectServiceOne as in the source. -/
def collectHPAOne (hpa : HPA) (stacksets : List StackSetContainer) :
    List StackSetContainer :=
  match getOwnerUID hpa.meta with
  | none => stacksets
  | some uid => attachByUID uid (putHPA hpa) stacksets

/-- collectHPAs over the whole listing. -/
def collectHPAs (hpas : List HPA)
    (stacksets : List StackSetContainer) : List StackSetContainer :=
  hpas.foldl (fun acc hpa => collectHPAOne hpa acc) stacksets

/-- Store an ingress into the main or traffic-segment slot of a stack,
split by the SegmentSuffix name convention. -/
def putIngress (ing : Ingress) (sc : StackContainer) : StackContainer :=
  if ing.meta.name.endsWith SegmentSuffix then
    { sc with resources := { sc.resources with ingressSegment := some ing } }
  else
    { sc with resources := { sc.resources with ingress := some ing } }

/-- The stack-level walk of collectIngresses: the first stackset whose
StackContainers map holds the owner UID receives the ingress. -/
def attachIngressToStacks (ing : Ingress) (uid : UID) :
    List StackSetContainer → List StackSetContainer
  | [] => []
  | ssc :: rest =>
    if anyStackUid uid ssc.stackContainers then
      { ssc with stackContainers := setStackAtUid uid (putIngress ing) ssc.stackContainers } :: rest
    else ssc :: attachIngressToStacks ing uid rest

/-- Processing of one listed ingress by collectIngresses: owner
resolution, then the stackset-level map lookup (across all stacksets at
once), then the per-stack walk. -/
def collectIngressOne (ing : Ingress) (stacksets : List StackSetContainer) :
    List StackSetContainer :=
  match getOwnerUID ing.meta with
  | none => stacksets
  | some uid =>
    if stacksets.any (fun ssc => ssc.uid == uid) then
      stacksets.map (fun ssc =>
        if ssc.uid == uid then { ssc with ingress := some ing } else ssc)
    else
      attachIngressToStacks ing uid stacksets

/-- collectIngresses over the whole listing. -/
def collectIngresses (ingresses : List Ingress)
    (stacksets : List StackSetContainer) : List StackSetContainer :=
  ingresses.foldl (fun acc ing => collectIngressOne ing acc) stacksets

/-! ## C3: retryUpdate and ReconcileStatuses -/

/-- Outcome class of a store call; conflict is what errors.IsConflict
recognizes, every other failure is otherError. -/
inductive ApiErr
  | conflict
  | otherError
deriving DecidableEq

/-- The object a Get returns (objects are reduced to their status, a Nat)
or the error it fails with. -/
inductive GetResult
  | ok (status : Nat)
  | err (e : ApiErr)
deriving DecidableEq

/-- Environment behavior for one iteration of the retry loop: the fresh
object a Get would return, and the outcome an UpdateStatus would have
(none meaning success). -/
structure EnvStep where
  getResult : GetResult
  updateOutcome : Option ApiErr
deriving DecidableEq

/-- Termination class of the retry loop; fuelOut stands for a run whose
environment script was exhausted while the loop was still retrying. -/
inductive LoopResult
  | wrote
  | noDiff
  | failed (e : ApiErr)
  | fuelOut
deriving DecidableEq

/-- Observable actions of one retry-loop iteration.  fromFetch records
whether the inspected object came from a re-fetch (the retry flag of the
update closure); computed is the status the tick computed; objStatus the
status carried by the object in hand. -/
inductive LoopEv
  | fetchFailed (e : ApiErr)
  | wroteStatus (fromFetch : Bool) (computed : Nat) (objStatus : Nat)
      (outcome : Option ApiErr)
  | skipNoDiff (fromFetch : Bool) (computed : Nat) (objStatus : Nat)
deriving DecidableEq

/-- Whether the object a loop event inspected came from a re-fetch (a
fetch failure trivially did). -/
def evFromFetch : LoopEv → Bool
  | LoopEv.fetchFailed _ => true
  | LoopEv.wroteStatus b _ _ _ => b
  | LoopEv.skipNoDiff b _ _ => b

/-- retryUpdate from controller/stackset.go applied to the status-update
closure of ReconcileStatuses: on the first iteration the held object is
inspected; on retry iterations the latest object is fetched first; a write
happens only when the computed status differs; any conflict error (from
the fetch or from the write) turns the retry flag on and loops. -/
def retryUpdateRun (computed : Nat) : Nat → Bool → List EnvStep →
    List LoopEv × LoopResult
  | _, _, [] => ([], LoopResult.fuelOut)
  | held, retry, step :: rest =>
    match (if retry then step.getResult else GetResult.ok held) with
    | GetResult.err e =>
      if e == ApiErr.conflict then
        let r := retryUpdateRun computed held true rest
        (LoopEv.fetchFailed e :: r.1, r.2)
      else ([LoopEv.fetchFailed e], LoopResult.failed e)
    | GetResult.ok obj =>
      if computed == obj then
        ([LoopEv.skipNoDiff retry computed obj], LoopResult.noDiff)
      else
        match step.updateOutcome with
        | none => ([LoopEv.wroteStatus retry computed obj none], LoopResult.wrote)
        | some e =>
          if e == ApiErr.conflict then
            let r := retryUpdateRun computed obj true rest
            (LoopEv.wroteStatus retry computed obj (some e) :: r.1, r.2)
          else ([LoopEv.wroteStatus retry computed obj (some e)], LoopResult.failed e)

/-- One status-reconciliation item: the object held from collection, the
status computed from the tick model, and the environment script for its
retry loop.  ReconcileStatuses runs one item per stack and a final item
for the stackset itself. -/
structure StatusItem where
  held : Nat
  computed : Nat
  script : List EnvStep
deriving DecidableEq

/-- ReconcileStatuses from controller/stackset.go: one retry loop per
object; a loop ending in an error stops the remaining items (the code
returns the evented error). -/
def ReconcileStatuses : List StatusItem → List LoopEv × Bool
  | [] => ([], true)
  | it :: rest =>
    let r := retryUpdateRun it.computed it.held false it.script
    match r.2 with
    | LoopResult.wrote =>
      let rr := ReconcileStatuses rest
      (r.1 ++ rr.1, rr.2)
    | LoopResult.noDiff =>
      let rr := ReconcileStatuses rest
      (r.1 ++ rr.1, rr.2)
    | _ => (r.1, false)

/-! ## C4: the stackset-level ingress/route-group converger -/

/-- Spec payload of an ingress or route-group object, opaque to the
converger; the derivative comparison on it is a parameter. -/
abbrev SpecPayload := Nat

/-- An ingress or route-group object as the converger sees it. -/
structure RObj where
  spec : SpecPayload
  labels : AMap
  annotations : AMap
deriving DecidableEq

/-- Result of one converger call, carrying the returned object; created
and updated each stand for exactly one write call. -/
inductive ConvergeResult
  | removed (existing : Option RObj)
  | created (obj : RObj)
  | noop (obj : RObj)
  | updated (obj : RObj)
deriving DecidableEq

/-- Number of create or update calls a converger result stands for. -/
def writeCalls : ConvergeResult → Nat
  | ConvergeResult.removed _ => 0
  | ConvergeResult.noop _ => 0
  | ConvergeResult.created _ => 1
  | ConvergeResult.updated _ => 1

/-- The object a converger call returns. -/
def returnedObj : ConvergeResult → Option RObj
  | ConvergeResult.removed ex => ex
  | ConvergeResult.created o => some o
  | ConvergeResult.noop o => some o
  | ConvergeResult.updated o => some o

/-- Shared body of AddUpdateStackSetIngress and AddUpdateStackSetRouteGroup
(textually parallel in the source): nil desired returns the existing
object; no existing object leads to a create stamped with the marker
annotation; otherwise the marker is removed from the existing annotations,
and the no-op path is taken only when the existing object carried the
marker AND the desired spec is derivative-equal AND desired annotations
equal the marker-stripped existing ones AND labels are equal; in every
other case an update overwrites spec, labels and annotations and stamps a
fresh marker. -/
def addUpdateObject (deriv : SpecPayload → SpecPayload → Bool) (nowS : String)
    (existing : Option RObj) (desired : Option RObj) : ConvergeResult :=
  match desired with
  | none => ConvergeResult.removed existing
  | some want =>
    match existing with
    | none =>
      ConvergeResult.created
        { want with annotations := aput want.annotations ControllerLastUpdatedAnnotationKey nowS }
    | some ex =>
      let lastUpdate := alook ex.annotations ControllerLastUpdatedAnnotationKey
      let exAnns :=
        match lastUpdate with
        | some _ => aerase ex.annotations ControllerLastUpdatedAnnotationKey
        | none => ex.annotations
      if lastUpdate.isSome && deriv want.spec ex.spec
          && amapEq want.annotations exAnns && amapEq want.labels ex.labels then
        let restored := aput exAnns ControllerLastUpdatedAnnotationKey (lastUpdate.getD (""))
        ConvergeResult.noop { ex with annotations := restored }
      else
        ConvergeResult.updated
          { spec := want.spec, labels := want.labels,
            annotations := aput want.annotations ControllerLastUpdatedAnnotationKey nowS }

/-- AddUpdateStackSetIngress from controller/stackset.go. -/
def AddUpdateStackSetIngress (deriv : SpecPayload → SpecPayload → Bool)
    (nowS : String) (existing desired : Option RObj) : ConvergeResult :=
  addUpdateObject deriv nowS existing desired

/-- AddUpdateStackSetRouteGroup from controller/stackset.go, whose body is
the same decision structure over route-group objects. -/
def AddUpdateStackSetRouteGroup (deriv : SpecPayload → SpecPayload → Bool)
    (nowS : String) (existing desired : Option RObj) : ConvergeResult :=
  addUpdateObject deriv nowS existing desired

/-! ## C5 / C6 / C7: ReconcileStackResources, CleanupOldStacks and the
per-stackset reconciliation order -/

/-- The child resource kinds ReconcileStackResources converges, one
constructor per reconcile call in the source. -/
inductive RKind
  | ingressMain
  | ingressSegment
  | routeGroupMain
  | routeGroupSegment
  | configMapRefs
  | secretRefs
  | pcs
  | deploymentRes
  | hpaRes
  | serviceRes
deriving DecidableEq

/-- The per-kind feature flags of StackSetConfig. -/
structure ControllerFlags where
  routeGroupSupportEnabled : Bool
  configMapSupportEnabled : Bool
  secretSupportEnabled : Bool
  pcsSupportEnabled : Bool
deriving DecidableEq

/-- The order in which ReconcileStackResources converges resource kinds,
with disabled kinds skipped, exactly as the calls appear in the source. -/
def stackResourceOrder (cfg : ControllerFlags) : List RKind :=
  RKind.ingressMain :: RKind.ingressSegment ::
    ((if cfg.routeGroupSupportEnabled then
        [RKind.routeGroupMain, RKind.routeGroupSegment] else []) ++
     (if cfg.configMapSupportEnabled then [RKind.configMapRefs] else []) ++
     (if cfg.secretSupportEnabled then [RKind.secretRefs] else []) ++
     (if cfg.pcsSupportEnabled then [RKind.pcs] else []) ++
     [RKind.deploymentRes, RKind.hpaRes, RKind.serviceRes])

/-- The early-return control flow of ReconcileStackResources: each kind in
order is attempted until one fails; the failing kind is evented (the
return value carries it) and the remaining kinds are not attempted. -/
def runKinds (fails : RKind → Bool) : List RKind → List RKind × Option RKind
  | [] => ([], none)
  | k :: rest =>
    if fails k then ([k], some k)
    else
      let r := runKinds fails rest
      (k :: r.1, r.2)

/-- ReconcileStackResources from controller/stackset.go, as the list of
attempted kinds plus the kind whose converge call failed, if any. -/
def ReconcileStackResources (cfg : ControllerFlags) (fails : RKind → Bool) :
    List RKind × Option RKind :=
  runKinds fails (stackResourceOrder cfg)

/-- Events recorded by CleanupOldStacks. -/
inductive CleanupEv
  | deletedExcessStack (uid : UID)
  | failedDeleteStack (uid : UID)
deriving DecidableEq

/-- CleanupOldStacks from controller/stackset.go: walks the stack
containers, attempts a Delete for each one flagged PendingRemoval, events
the outcome, and returns (stopping the walk) on the first delete failure.
Result: delete attempts in order, recorded events, success flag. -/
def CleanupOldStacks (deleteFails : UID → Bool) :
    List StackContainer → List UID × List CleanupEv × Bool
  | [] => ([], [], true)
  | sc :: rest =>
    if sc.pendingRemoval then
      if deleteFails sc.uid then
        ([sc.uid], [CleanupEv.failedDeleteStack sc.uid], false)
      else
        let r := CleanupOldStacks deleteFails rest
        (sc.uid :: r.1, CleanupEv.deletedExcessStack sc.uid :: r.2.1, r.2.2)
    else CleanupOldStacks deleteFails rest

/-- The UIDs flagged PendingRemoval, in container order. -/
def pendingUids (scs : List StackContainer) : List UID :=
  (scs.filter (fun sc => sc.pendingRemoval)).map (fun sc => sc.uid)

/-- Prefix of a list up to and including the first element on which f
holds; the shape CleanupOldStacks attempts take. -/
def untilFirstFail (f : UID → Bool) : List UID → List UID
  | [] => []
  | u :: rest => if f u then [u] else u :: untilFirstFail f rest

/-- Stage markers of one ReconcileStackSet invocation, in the source
order of the calls they stand for. -/
inductive StageLabel
  | createStack
  | collectionUpdate
  | manageTraffic
  | markExpired
  | segments
  | recordSwitch
  | desiredTraffic
  | cleanup
  | statuses
deriving DecidableEq

/-- Trace events of one ReconcileStackSet invocation: stage markers,
per-stack per-kind converge attempts, and per-stack delete attempts. -/
inductive Ev
  | stage (s : StageLabel)
  | attempt (uid : UID) (k : RKind)
  | delAttempt (uid : UID)
deriving DecidableEq

/-- Environment script for one ReconcileStackSet invocation.  Stages whose
errors the code merely events and proceeds past (stack creation, traffic
management, desired-traffic write) carry flags that do not change the
trace shape; UpdateFromResources failure aborts the invocation; a segment
computation failure yields no segment order (segments = none). -/
structure SSScript where
  createStackErr : Bool
  updateFromResourcesErr : Bool
  manageTrafficErr : Bool
  segments : Option (List UID)
  resourceFails : UID → RKind → Bool
  deleteFails : UID → Bool
  statusErr : Bool

/-- The converge attempts ReconcileStackResources makes for one stack,
as trace events. -/
def convergeAttempts (cfg : ControllerFlags)
    (resourceFails : UID → RKind → Bool) (uid : UID) : List Ev :=
  (ReconcileStackResources cfg (resourceFails uid)).1.map
    (fun k => Ev.attempt uid k)

/-- The first converge loop of ReconcileStackSet: stacks in traffic
segment order; each segment UID is looked up among the containers. -/
def segLoopEvents (cfg : ControllerFlags)
    (resourceFails : UID → RKind → Bool) (scs : List StackContainer)
    (segs : List UID) : List Ev :=
  segs.foldr (fun id acc =>
    (match scs.find? (fun sc => sc.uid == id) with
     | some sc => convergeAttempts cfg resourceFails sc.uid
     | none => []) ++ acc) []

/-- The second converge loop of ReconcileStackSet: the stacks not already
reconciled in segment order. -/
def restLoopEvents (cfg : ControllerFlags)
    (resourceFails : UID → RKind → Bool) (scs : List StackContainer)
    (segs : List UID) : List Ev :=
  (scs.filter (fun sc => !(segs.contains sc.uid))).foldr
    (fun sc acc => convergeAttempts cfg resourceFails sc.uid ++ acc) []

/-- ReconcileStackSet from controller/stackset.go as a trace of its
observable actions plus its success flag.  The source order is: create
current stack (proceed on error), update from collected resources (abort
on error), manage traffic (proceed on error), mark expired stacks,
compute traffic segments (proceed on error with an empty order), converge
stack resources per stack (proceed on per-stack errors), record the
traffic switch, reconcile desired traffic, clean up old stacks (proceed
on error), and finally reconcile statuses. -/
def ReconcileStackSet (cfg : ControllerFlags) (scs : List StackContainer)
    (scr : SSScript) : List Ev × Bool :=
  let t0 : List Ev :=
    [Ev.stage StageLabel.createStack, Ev.stage StageLabel.collectionUpdate]
  if scr.updateFromResourcesErr then (t0, false)
  else
    let segs := scr.segments.getD []
    let conv := segLoopEvents cfg scr.resourceFails scs segs ++
      restLoopEvents cfg scr.resourceFails scs segs
    let cleanupEvs := (CleanupOldStacks scr.deleteFails scs).1.map Ev.delAttempt
    (t0 ++
      [Ev.stage StageLabel.manageTraffic, Ev.stage StageLabel.markExpired,
        Ev.stage StageLabel.segments] ++
      conv ++
      [Ev.stage StageLabel.recordSwitch, Ev.stage StageLabel.desiredTraffic,
        Ev.stage StageLabel.cleanup] ++
      cleanupEvs ++
      [Ev.stage StageLabel.statuses],
      !scr.statusErr)

/-- Position of the first occurrence of a stage marker in a trace. -/
def stageIdx (s : StageLabel) (t : List Ev) : Option Nat :=
  t.findIdx? (fun e => e == Ev.stage s)

/-- Strict order on optional positions: both present and first earlier. -/
def optIdxLt (a b : Option Nat) : Bool :=
  match a, b with
  | some i, some j => i < j
  | _, _ => false

/-! ## C9: the liveness check registered by Run -/

/-- The liveness closure from Run: fails when time.Since(nextCheck)
exceeds 5 times the configured interval.  Instants and durations are
integers (nanoseconds). -/
def livenessCheckFails (interval nowT nextCheck : Int) : Bool :=
  5 * interval < nowT - nextCheck

/-- The value Run assigns to nextCheck at the start of each tick:
time.Now().Add(interval). -/
def nextCheckAfterTick (tickStart interval : Int) : Int :=
  tickStart + interval

/-! ## C10: prescaling opt-in and the reset-delay annotation -/

/-- defaultResetMinReplicasDelay: 10 minutes in nanoseconds. -/
def defaultResetMinReplicasDelay : Int := 600000000000

/-- getResetMinReplicasDelay from controller/stackset.go: none when the
annotation is absent or its value fails to parse as a duration.  The
duration grammar of the Go standard library is abstracted as the
parseDuration parameter. -/
def getResetMinReplicasDelay (parseDuration : String → Option Int)
    (annotations : AMap) : Option Int :=
  match alook annotations ResetHPAMinReplicasDelayAnnotationKey with
  | none => none
  | some s => parseDuration s

/-- The traffic reconciler selected for one stackset. -/
inductive TrafficReconcilerChoice
  | simple
  | prescaling (resetTimeout : Int)
deriving DecidableEq

/-- The reconciler selection of collectResources: Simple by default,
Prescaling when the prescale annotation key is present, with the reset
timeout from the delay annotation when it parses and the default
otherwise. -/
def chooseTrafficReconciler (parseDuration : String → Option Int)
    (annotations : AMap) : TrafficReconcilerChoice :=
  if (alook annotations PrescaleStacksAnnotationKey).isSome then
    TrafficReconcilerChoice.prescaling
      (match getResetMinReplicasDelay parseDuration annotations with
       | some v => v
       | none => defaultResetMinReplicasDelay)
  else TrafficReconcilerChoice.simple

/-! ## Helper lemmas on association maps -/

theorem alook_append {α : Type} (m1 m2 : AList α) (k : String) :
    alook (m1 ++ m2) k = ((alook m1 k).rec (alook m2 k) (fun v => some v)) := by
  induction m1 with
  | nil => simp [alook]
  | cons p rest ih =>
    simp only [List.cons_append, alook]
    by_cases h : p.1 = k
    · simp [h]
    · simp [h, ih]

theorem alook_erase {α : Type} (m : AList α) (k0 k : String) :
    alook (aerase m k0) k = if k = k0 then none else alook m k := by
  induction m with
  | nil => simp [aerase, alook]
  | cons p rest ih =>
    simp only [aerase, List.filter] at ih ⊢
    by_cases h : p.1 = k0
    · simp only [h, bne_self_eq_false]
      rw [ih]
      by_cases hk : k = k0
      · simp [hk]
      · simp only [hk, if_neg hk, alook]
        have : ¬ (p.1 = k) := by rw [h]; exact fun hc => hk hc.symm
        simp [this]
    · have hb : (p.1 != k0) = true := by simp [bne, h]
      simp only [hb, alook]
      by_cases hk : p.1 = k
      · have : ¬ (k = k0) := fun hc => h (hk.trans hc)
        simp [hk, this]
      · simp [hk, ih]

/-- Restoring a just-deleted key with its old value preserves all lookups:
the round trip performed by the converger's no-op path. -/
theorem alook_aput_erase {α : Type} (m : AList α) (k0 : String) (v : α)
    (h : alook m k0 = some v) (k : String) :
    alook (aput (aerase m k0) k0 v) k = alook m k := by
  unfold aput
  rw [alook_append]
  have herase : aerase (aerase m k0) k0 = aerase m k0 := by
    unfold aerase
    rw [List.filter_filter]
    simp
  rw [herase, alook_erase]
  by_cases hk : k = k0
  · simp [hk, alook, h]
  · simp only [hk, if_neg hk]
    have h1 : alook [(k0, v)] k = none := by
      simp only [alook]
      rw [if_neg]
      exact fun hc => hk hc.symm
    cases h2 : alook m k <;> simp [h1, h2]

theorem getOwnerUID_isSome (m : ObjectMeta) :
    (getOwnerUID m).isSome = true ↔ m.ownerReferences.length = 1 := by
  unfold getOwnerUID
  rcases hl : m.ownerReferences with _ | ⟨u, _ | ⟨v, t⟩⟩ <;> simp

theorem getOwnerUID_eq_none {m : ObjectMeta}
    (h : m.ownerReferences.length ≠ 1) : getOwnerUID m = none := by
  have := (getOwnerUID_isSome m).not
  rcases hg : getOwnerUID m with _ | u
  · rfl
  · exact absurd ((getOwnerUID_isSome m).mp (by simp [hg])) h

/-! ## C1 -/

/-- C1: hasOwnership is true exactly when the controller annotation value
equals the configured controller ID, or when the annotation is absent and
the controller ID is the empty string; processing a stacksetEvents message
whose StackSet the controller does not own leaves that StackSet outside
the watched store (collectResources builds reconciliation containers only
from store entries, so the StackSet is never reconciled or mutated), and
when the StackSet was not in the store the store is returned completely
unchanged; the rejection path produces no error (the handler is a total
function into stores). -/
theorem c1_ownership_and_admission (controllerID : String) (ss : StackSet) :
    (hasOwnership controllerID ss = true ↔
      (controllerAnnotationValue ss = some controllerID ∨
        (controllerAnnotationValue ss = none ∧ controllerID = ""))) ∧
    (∀ (store : Store) (deleted : Bool),
      hasOwnership controllerID ss = false →
      alook (processStacksetEvent controllerID store ⟨deleted, ss⟩) ss.uid = none) ∧
    (∀ (store : Store) (deleted : Bool),
      hasOwnership controllerID ss = false →
      alook store ss.uid = none →
      processStacksetEvent controllerID store ⟨deleted, ss⟩ = store) := by
  refine ⟨?_, ?_, ?_⟩
  · obtain ⟨u, ann⟩ := ss
    cases ann with
    | none => simp [hasOwnership, controllerAnnotationValue, beq_iff_eq]
    | some anns =>
      simp only [hasOwnership, controllerAnnotationValue]
      cases hl : alook anns StacksetControllerControllerAnnotationKey with
      | none => simp [beq_iff_eq]
      | some owner => simp [beq_iff_eq]
  · intro store deleted hno
    unfold processStacksetEvent
    cases hs : alook store ss.uid with
    | some v => simp [hs, hno, alook_erase]
    | none => simp [hs, hno]
  · intro store deleted hno hnone
    unfold processStacksetEvent
    simp [hnone, hno]

/-- Witness for C1: a concrete StackSet annotated for another controller
is not owned, is removed from the store on its event, and an absent entry
leaves the store untouched. -/
theorem c1_ownership_and_admission_w :
    hasOwnership ("ctrl-a")
      ⟨("uid-1"), some [(StacksetControllerControllerAnnotationKey, ("ctrl-b"))]⟩ = false ∧
    alook (processStacksetEvent ("ctrl-a")
        [(("uid-1"), ⟨("uid-1"), none⟩)]
        ⟨false, ⟨("uid-1"), some [(StacksetControllerControllerAnnotationKey, ("ctrl-b"))]⟩⟩)
      ("uid-1") = none ∧
    processStacksetEvent ("ctrl-a") []
        ⟨false, ⟨("uid-1"), some [(StacksetControllerControllerAnnotationKey, ("ctrl-b"))]⟩⟩ = [] := by
  refine ⟨by decide, ?_, ?_⟩
  · exact (c1_ownership_and_admission ("ctrl-a") _).2.1 _ false (by decide)
  · exact (c1_ownership_and_admission ("ctrl-a") _).2.2 [] false (by decide) (by decide)

/-! ## C2 -/

/-- C2: getOwnerUID yields an owner UID exactly when the metadata carries
exactly one owner reference, and an ingress, service or autoscaler whose
owner-reference count differs from one is attached to no stackset
container and no stack container: the collect step returns the containers
unchanged. -/
theorem c2_exclusive_owner_required :
    (∀ m : ObjectMeta,
      (getOwnerUID m).isSome = true ↔ m.ownerReferences.length = 1) ∧
    (∀ (ing : Ingress) (cs : List StackSetContainer),
      ing.meta.ownerReferences.length ≠ 1 → collectIngressOne ing cs = cs) ∧
    (∀ (svc : Service) (cs : List StackSetContainer),
      svc.meta.ownerReferences.length ≠ 1 → collectServiceOne svc cs = cs) ∧
    (∀ (hpa : HPA) (cs : List StackSetContainer),
      hpa.meta.ownerReferences.length ≠ 1 → collectHPAOne hpa cs = cs) := by
  refine ⟨getOwnerUID_isSome, ?_, ?_, ?_⟩
  · intro ing cs h
    unfold collectIngressOne
    rw [getOwnerUID_eq_none h]
  · intro svc cs h
    unfold collectServiceOne
    rw [getOwnerUID_eq_none h]
  · intro hpa cs h
    unfold collectHPAOne
    rw [getOwnerUID_eq_none h]

/-- Witness for C2 at concrete objects with zero and with two owner
references. -/
theorem c2_exclusive_owner_required_w :
    ((getOwnerUID ⟨("n"), ("u"), []⟩).isSome = true ↔
      ([] : List UID).length = 1) ∧
    collectIngressOne ⟨⟨("n"), ("u"), []⟩⟩
      [⟨("ss1"), none, [⟨("st1"), false, {}⟩]⟩] =
      [⟨("ss1"), none, [⟨("st1"), false, {}⟩]⟩] ∧
    collectServiceOne ⟨⟨("n"), ("u"), [("o1"), ("o2")]⟩⟩
      [⟨("ss1"), none, [⟨("st1"), false, {}⟩]⟩] =
      [⟨("ss1"), none, [⟨("st1"), false, {}⟩]⟩] ∧
    collectHPAOne ⟨⟨("n"), ("u"), []⟩⟩ [] = [] := by
  refine ⟨c2_exclusive_owner_required.1 _, ?_, ?_, ?_⟩
  · exact c2_exclusive_owner_required.2.1 _ _ (by decide)
  · exact c2_exclusive_owner_required.2.2.1 _ _ (by decide)
  · exact c2_exclusive_owner_required.2.2.2 _ _ (by decide)

/-! ## C9 -/

/-- C9 counterexample: at 5.5 intervals after the most recent tick start
the claim as stated demands a failing liveness check, but the check
registered by Run still passes, because it measures from nextCheck, which
is one interval after the tick start. -/
theorem c9_counterexample :
    livenessCheckFails 10 55 (nextCheckAfterTick 0 10) = false ∧
      5 * 10 < 55 - 0 := by
  exact ⟨by decide, by decide⟩

/-- C9 amended: once a tick at tickStart has set nextCheck, the liveness
check fails exactly when the time since the tick start exceeds SIX times
the configured interval (equivalently, the time since the scheduled next
tick instant exceeds five intervals). -/
theorem c9_liveness_threshold (interval tickStart nowT : Int) :
    livenessCheckFails interval nowT (nextCheckAfterTick tickStart interval) = true ↔
      6 * interval < nowT - tickStart := by
  unfold livenessCheckFails nextCheckAfterTick
  constructor
  · intro h
    have := of_decide_eq_true h
    omega
  · intro h
    apply decide_eq_true
    omega

/-! ## C10 -/

/-- C10: when the prescale-stacks annotation key is present, the selected
reconciler is always Prescaling, whatever the reset-delay annotation
holds; if the delay annotation is absent, or its value fails to parse as
a duration, the default 10-minute timeout is used; a malformed value is
not an error and never causes a fallback to the Simple policy (the
selection is a total function whose result under the prescale key is
always a Prescaling variant). -/
theorem c10_prescale_delay_fallback (parse : String → Option Int)
    (anns : AMap)
    (hp : (alook anns PrescaleStacksAnnotationKey).isSome = true) :
    (∃ d : Int, chooseTrafficReconciler parse anns =
      TrafficReconcilerChoice.prescaling d) ∧
    (alook anns ResetHPAMinReplicasDelayAnnotationKey = none →
      chooseTrafficReconciler parse anns =
        TrafficReconcilerChoice.prescaling defaultResetMinReplicasDelay) ∧
    (∀ s, alook anns ResetHPAMinReplicasDelayAnnotationKey = some s →
      parse s = none →
      chooseTrafficReconciler parse anns =
        TrafficReconcilerChoice.prescaling defaultResetMinReplicasDelay) := by
  refine ⟨?_, ?_, ?_⟩
  · unfold chooseTrafficReconciler
    rw [if_pos hp]
    exact ⟨_, rfl⟩
  · intro habs
    unfold chooseTrafficReconciler getResetMinReplicasDelay
    rw [if_pos hp, habs]
  · intro s hs hparse
    unfold chooseTrafficReconciler getResetMinReplicasDelay
    rw [if_pos hp, hs]
    simp [hparse]

/-- Witness for C10: a concrete annotations map opting into prescaling
with an unparseable delay value yields Prescaling with the default
timeout. -/
theorem c10_prescale_delay_fallback_w :
    chooseTrafficReconciler (fun _ => none)
      [(PrescaleStacksAnnotationKey, ("true")),
        (ResetHPAMinReplicasDelayAnnotationKey, ("bogus"))] =
      TrafficReconcilerChoice.prescaling defaultResetMinReplicasDelay := by
  exact (c10_prescale_delay_fallback (fun _ => none) _ (by decide)).2.2
    ("bogus") (by decide) rfl

/-! ## C4 -/

/-- C4 counterexample: an existing ingress whose spec is derivative-equal
to the desired spec and whose labels and annotations (ignoring the marker
annotation) equal the desired ones, but which does not carry the marker
annotation itself, is nevertheless updated: one write call is issued where
the claim demands zero. -/
theorem c4_counterexample :
    (fun a b => a == b) (0 : SpecPayload) (0 : SpecPayload) = true ∧
    amapEq ([] : AMap) (aerase ([] : AMap) ControllerLastUpdatedAnnotationKey) = true ∧
    amapEq ([] : AMap) ([] : AMap) = true ∧
    writeCalls (AddUpdateStackSetIngress (fun a b => a == b) ("t1")
      (some ⟨0, [], []⟩) (some ⟨0, [], []⟩)) = 1 ∧
    writeCalls (AddUpdateStackSetRouteGroup (fun a b => a == b) ("t1")
      (some ⟨0, [], []⟩) (some ⟨0, [], []⟩)) = 1 := by
  exact ⟨rfl, rfl, rfl, rfl, rfl⟩

/-- C4 amended: for an existing ingress or route-group object that DOES
carry the controller marker annotation, whose spec is derivative-equal to
the desired spec, and whose labels and marker-stripped annotations equal
the desired ones, both converger functions issue zero create and zero
update calls and return the existing object unchanged (same spec, same
labels, same annotation lookups); an existing object lacking the marker is
updated even when otherwise identical (per the counterexample). -/
theorem c4_noop_requires_marker (deriv : SpecPayload → SpecPayload → Bool)
    (nowS : String) (ex want : RObj) (v : String)
    (hmark : alook ex.annotations ControllerLastUpdatedAnnotationKey = some v)
    (hspec : deriv want.spec ex.spec = true)
    (hann : amapEq want.annotations
      (aerase ex.annotations ControllerLastUpdatedAnnotationKey) = true)
    (hlab : amapEq want.labels ex.labels = true) :
    ∃ r : RObj,
      AddUpdateStackSetIngress deriv nowS (some ex) (some want) =
        ConvergeResult.noop r ∧
      AddUpdateStackSetRouteGroup deriv nowS (some ex) (some want) =
        ConvergeResult.noop r ∧
      writeCalls (AddUpdateStackSetIngress deriv nowS (some ex) (some want)) = 0 ∧
      writeCalls (AddUpdateStackSetRouteGroup deriv nowS (some ex) (some want)) = 0 ∧
      r.spec = ex.spec ∧ r.labels = ex.labels ∧
      (∀ k, alook r.annotations k = alook ex.annotations k) := by
  have hrun : addUpdateObject deriv nowS (some ex) (some want) =
      ConvergeResult.noop
        { ex with
          annotations := aput (aerase ex.annotations ControllerLastUpdatedAnnotationKey) ControllerLastUpdatedAnnotationKey v } := by
    unfold addUpdateObject
    dsimp only
    rw [hmark]
    simp only [Option.isSome_some, Bool.true_and, hspec, hlab, hann,
      Bool.and_true, Option.getD_some, if_true]
  refine ⟨{ ex with
      annotations := aput (aerase ex.annotations ControllerLastUpdatedAnnotationKey) ControllerLastUpdatedAnnotationKey v },
    ?_, ?_, ?_, ?_, rfl, rfl, ?_⟩
  · unfold AddUpdateStackSetIngress
    exact hrun
  · unfold AddUpdateStackSetRouteGroup
    exact hrun
  · unfold AddUpdateStackSetIngress
    rw [hrun]
    rfl
  · unfold AddUpdateStackSetRouteGroup
    rw [hrun]
    rfl
  · intro k
    exact alook_aput_erase ex.annotations ControllerLastUpdatedAnnotationKey v hmark k

/-- Witness for C4 amended: a concrete existing object carrying the
marker, equal to the desired object up to the marker, is a no-op for both
converger functions. -/
theorem c4_noop_requires_marker_w :
    ∃ r : RObj,
      AddUpdateStackSetIngress (fun a b => a == b) ("t1")
        (some ⟨0, [], [(ControllerLastUpdatedAnnotationKey, ("t0"))]⟩)
        (some ⟨0, [], []⟩) = ConvergeResult.noop r ∧
      AddUpdateStackSetRouteGroup (fun a b => a == b) ("t1")
        (some ⟨0, [], [(ControllerLastUpdatedAnnotationKey, ("t0"))]⟩)
        (some ⟨0, [], []⟩) = ConvergeResult.noop r ∧
      writeCalls (AddUpdateStackSetIngress (fun a b => a == b) ("t1")
        (some ⟨0, [], [(ControllerLastUpdatedAnnotationKey, ("t0"))]⟩)
        (some ⟨0, [], []⟩)) = 0 ∧
      writeCalls (AddUpdateStackSetRouteGroup (fun a b => a == b) ("t1")
        (some ⟨0, [], [(ControllerLastUpdatedAnnotationKey, ("t0"))]⟩)
        (some ⟨0, [], []⟩)) = 0 ∧
      r.spec = 0 ∧ r.labels = [] ∧
      (∀ k, alook r.annotations k =
        alook [(ControllerLastUpdatedAnnotationKey, ("t0"))] k) := by
  exact c4_noop_requires_marker (fun a b => a == b) ("t1")
    ⟨0, [], [(ControllerLastUpdatedAnnotationKey, ("t0"))]⟩ ⟨0, [], []⟩
    ("t0") (by decide) rfl (by decide) (by decide)

/-! ## C6 -/

/-- C6 counterexample: with two stacks flagged PendingRemoval and a store
whose deletes fail, CleanupOldStacks attempts only the first delete; the
second PendingRemoval stack receives no delete attempt in that tick,
contrary to the claim that the remaining attempts still take place. -/
theorem c6_counterexample :
    (CleanupOldStacks (fun _ => true)
      [{ uid := ("stack-a"), pendingRemoval := true },
        { uid := ("stack-b"), pendingRemoval := true }]).1 = [("stack-a")] ∧
    ¬ (∀ sc ∈ ([{ uid := ("stack-a"), pendingRemoval := true },
          { uid := ("stack-b"), pendingRemoval := true }] : List StackContainer),
        sc.pendingRemoval = true →
        sc.uid ∈ (CleanupOldStacks (fun _ => true)
          [{ uid := ("stack-a"), pendingRemoval := true },
            { uid := ("stack-b"), pendingRemoval := true }]).1) := by
  constructor
  · rfl
  · decide

/-- C6 amended: CleanupOldStacks attempts a delete for the PendingRemoval
stacks in container order only up to and including the first failing
delete; the failure is reported as a FailedDeleteStack event, each earlier
successful delete as a DeletedExcessStack event, the PendingRemoval stacks
after the first failure are not attempted in that tick, and the call
succeeds exactly when no pending delete fails. -/
theorem c6_cleanup_stops_at_first_failure (f : UID → Bool)
    (scs : List StackContainer) :
    (CleanupOldStacks f scs).1 = untilFirstFail f (pendingUids scs) ∧
    (∀ u ∈ (CleanupOldStacks f scs).1,
      (f u = true →
        CleanupEv.failedDeleteStack u ∈ (CleanupOldStacks f scs).2.1) ∧
      (f u = false →
        CleanupEv.deletedExcessStack u ∈ (CleanupOldStacks f scs).2.1)) ∧
    ((CleanupOldStacks f scs).2.2 = true ↔ ∀ u ∈ pendingUids scs, f u = false) := by
  induction scs with
  | nil => simp [CleanupOldStacks, pendingUids, untilFirstFail]
  | cons sc rest ih =>
    by_cases hp : sc.pendingRemoval = true
    · have hpend : pendingUids (sc :: rest) = sc.uid :: pendingUids rest := by
        simp [pendingUids, hp]
      by_cases hf : f sc.uid = true
      · refine ⟨?_, ?_, ?_⟩
        · simp [CleanupOldStacks, hp, hf, hpend, untilFirstFail]
        · intro u hu
          simp [CleanupOldStacks, hp, hf] at hu
          subst hu
          constructor
          · intro _
            simp [CleanupOldStacks, hp, hf]
          · intro hfalse
            rw [hf] at hfalse
            exact absurd hfalse (by simp)
        · simp only [CleanupOldStacks, hp, if_pos rfl, hf, if_pos rfl, hpend]
          constructor
          · intro h
            exact absurd h (by simp)
          · intro h
            exact absurd (h sc.uid (by simp)) (by simp [hf])
      · have hf' : f sc.uid = false := by
          cases hx : f sc.uid
          · rfl
          · exact absurd hx hf
        have hstep : CleanupOldStacks f (sc :: rest) =
            ((CleanupOldStacks f rest).1.cons sc.uid,
              (CleanupOldStacks f rest).2.1.cons (CleanupEv.deletedExcessStack sc.uid),
              (CleanupOldStacks f rest).2.2) := by
          simp [CleanupOldStacks, hp, hf']
        refine ⟨?_, ?_, ?_⟩
        · rw [hstep, hpend]
          simp [untilFirstFail, hf', ih.1]
        · intro u hu
          rw [hstep] at hu
          simp only [List.cons_eq_cons, List.mem_cons] at hu
          rcases hu with hu | hu
          · subst hu
            refine ⟨?_, ?_⟩
            · intro htrue
              exact absurd htrue (by simp [hf'])
            · intro _
              rw [hstep]
              simp
          · refine ⟨?_, ?_⟩
            · intro htrue
              rw [hstep]
              simp only [List.cons_eq_cons, List.mem_cons]
              exact Or.inr ((ih.2.1 u hu).1 htrue)
            · intro hfalse
              rw [hstep]
              simp only [List.cons_eq_cons, List.mem_cons]
              exact Or.inr ((ih.2.1 u hu).2 hfalse)
        · rw [hstep, hpend]
          simp only [List.mem_cons]
          constructor
          · intro h u hu
            rcases hu with hu | hu
            · subst hu; exact hf'
            · exact (ih.2.2.mp h) u hu
          · intro h
            exact ih.2.2.mpr (fun u hu => h u (Or.inr hu))
    · have hp' : sc.pendingRemoval = false := by
        cases hx : sc.pendingRemoval
        · rfl
        · exact absurd hx hp
      have hpend : pendingUids (sc :: rest) = pendingUids rest := by
        simp [pendingUids, hp']
      have hstep : CleanupOldStacks f (sc :: rest) = CleanupOldStacks f rest := by
        simp [CleanupOldStacks, hp']
      rw [hstep, hpend]
      exact ih

/-- Witness for C6 amended: three pending stacks with the middle delete
failing; attempts stop at the failure, with the matching events. -/
theorem c6_cleanup_stops_at_first_failure_w :
    (CleanupOldStacks (fun u => u == ("stack-b"))
      [{ uid := ("stack-a"), pendingRemoval := true },
        { uid := ("stack-b"), pendingRemoval := true },
        { uid := ("stack-c"), pendingRemoval := true }]).1 =
      untilFirstFail (fun u => u == ("stack-b"))
        (pendingUids [{ uid := ("stack-a"), pendingRemoval := true },
          { uid := ("stack-b"), pendingRemoval := true },
          { uid := ("stack-c"), pendingRemoval := true }]) ∧
    CleanupEv.failedDeleteStack ("stack-b") ∈
      (CleanupOldStacks (fun u => u == ("stack-b"))
        [{ uid := ("stack-a"), pendingRemoval := true },
          { uid := ("stack-b"), pendingRemoval := true },
          { uid := ("stack-c"), pendingRemoval := true }]).2.1 := by
  constructor
  · exact (c6_cleanup_stops_at_first_failure (fun u => u == ("stack-b")) _).1
  · exact ((c6_cleanup_stops_at_first_failure (fun u => u == ("stack-b")) _).2.1
      ("stack-b") (by decide)).1 (by decide)

/-! ## Helper lemmas for the reconcile-loop models -/

theorem runKinds_some (fails : RKind → Bool) :
    ∀ (l : List RKind) (k : RKind), (runKinds fails l).2 = some k →
      fails k = true ∧
      (runKinds fails l).1 = l.takeWhile (fun j => !(fails j)) ++ [k] := by
  intro l
  induction l with
  | nil => intro k h; simp [runKinds] at h
  | cons k0 rest ih =>
    intro k h
    by_cases hf : fails k0 = true
    · simp only [runKinds, hf, if_pos rfl] at h ⊢
      obtain rfl : k0 = k := by simpa using h
      simp [List.takeWhile_cons, hf]
    · have hf' : fails k0 = false := by
        cases hx : fails k0
        · rfl
        · exact absurd hx hf
      simp only [runKinds, hf', Bool.false_eq_true, if_false] at h ⊢
      obtain ⟨h1, h2⟩ := ih k h
      refine ⟨h1, ?_⟩
      simp [List.takeWhile_cons, hf', h2]

theorem head_mem_runKinds (fails : RKind → Bool) (k : RKind)
    (rest : List RKind) : k ∈ (runKinds fails (k :: rest)).1 := by
  by_cases hf : fails k = true
  · simp [runKinds, hf]
  · have hf' : fails k = false := by
      cases hx : fails k
      · rfl
      · exact absurd hx hf
    simp [runKinds, hf']

theorem ingress_mem_convergeAttempts (cfg : ControllerFlags)
    (rf : UID → RKind → Bool) (uid : UID) :
    Ev.attempt uid RKind.ingressMain ∈ convergeAttempts cfg rf uid := by
  unfold convergeAttempts ReconcileStackResources stackResourceOrder
  exact List.mem_map_of_mem _ (head_mem_runKinds _ _ _)

theorem convergeAttempts_attempts (cfg : ControllerFlags)
    (rf : UID → RKind → Bool) (uid : UID) :
    ∀ e ∈ convergeAttempts cfg rf uid, ∃ u k, e = Ev.attempt u k := by
  intro e he
  obtain ⟨k, _, rfl⟩ := List.mem_map.mp he
  exact ⟨uid, k, rfl⟩

theorem find?_of_any {p : StackContainer → Bool} :
    ∀ (l : List StackContainer), l.any p = true →
      ∃ t, l.find? p = some t ∧ p t = true := by
  intro l
  induction l with
  | nil => intro h; simp at h
  | cons x rest ih =>
    intro h
    by_cases hx : p x = true
    · exact ⟨x, by simp [List.find?_cons, hx], hx⟩
    · have hx' : p x = false := by
        cases he : p x
        · rfl
        · exact absurd he hx
      have hr : rest.any p = true := by
        simp only [List.any_cons, hx', Bool.false_or] at h
        exact h
      obtain ⟨t, h1, h2⟩ := ih hr
      exact ⟨t, by simp [List.find?_cons, hx', h1], h2⟩

theorem mem_segLoopEvents (cfg : ControllerFlags) (rf : UID → RKind → Bool)
    (scs : List StackContainer) (uid : UID) :
    ∀ (segs : List UID), segs.contains uid = true →
      anyStackUid uid scs = true →
      Ev.attempt uid RKind.ingressMain ∈ segLoopEvents cfg rf scs segs := by
  intro segs
  induction segs with
  | nil => intro h _; simp [List.contains] at h
  | cons id rest ih =>
    intro hc hany
    by_cases hid : id = uid
    · subst hid
      obtain ⟨t, hfind, hpt⟩ := find?_of_any _ hany
      have ht : t.uid = id := by simpa using hpt
      simp only [segLoopEvents, List.foldr_cons, hfind]
      apply List.mem_append_left
      rw [ht]
      exact ingress_mem_convergeAttempts cfg rf id
    · have hrest : rest.contains uid = true := by
        simp only [List.contains_cons, Bool.or_eq_true, beq_iff_eq] at hc
        rcases hc with hc | hc
        · exact absurd hc.symm hid
        · exact hc
      have := ih hrest hany
      simp only [segLoopEvents, List.foldr_cons]
      apply List.mem_append_right
      simpa [segLoopEvents] using this

theorem mem_restLoopEvents (cfg : ControllerFlags) (rf : UID → RKind → Bool)
    (segs : List UID) :
    ∀ (scs : List StackContainer) (sc : StackContainer), sc ∈ scs →
      segs.contains sc.uid = false →
      Ev.attempt sc.uid RKind.ingressMain ∈ restLoopEvents cfg rf scs segs := by
  intro scs
  induction scs with
  | nil => intro sc h; simp at h
  | cons x rest ih =>
    intro sc hmem hnc
    rcases List.mem_cons.mp hmem with hx | hx
    · subst hx
      simp only [restLoopEvents, List.filter_cons, hnc, Bool.not_false,
        if_pos rfl, List.foldr_cons]
      apply List.mem_append_left
      exact ingress_mem_convergeAttempts cfg rf sc.uid
    · have htail := ih sc hx hnc
      by_cases hkx : (!(segs.contains x.uid)) = true
      · simp only [restLoopEvents, List.filter_cons, hkx, if_pos rfl,
          List.foldr_cons]
        apply List.mem_append_right
        simpa [restLoopEvents] using htail
      · have hkx' : (!(segs.contains x.uid)) = false := by
          cases he : (!(segs.contains x.uid))
          · rfl
          · exact absurd he hkx
        simp only [restLoopEvents, List.filter_cons, hkx', Bool.false_eq_true,
          if_false]
        simpa [restLoopEvents] using htail

theorem segLoopEvents_attempts (cfg : ControllerFlags)
    (rf : UID → RKind → Bool) (scs : List StackContainer) :
    ∀ (segs : List UID) (e : Ev), e ∈ segLoopEvents cfg rf scs segs →
      ∃ u k, e = Ev.attempt u k := by
  intro segs
  induction segs with
  | nil => intro e h; simp [segLoopEvents] at h
  | cons id rest ih =>
    intro e h
    simp only [segLoopEvents, List.foldr_cons] at h
    rcases List.mem_append.mp h with h | h
    · cases hfind : List.find? (fun sc => sc.uid == id) scs with
      | none => rw [hfind] at h; simp at h
      | some t =>
        rw [hfind] at h
        exact convergeAttempts_attempts cfg rf t.uid e h
    · exact ih e (by simpa [segLoopEvents] using h)

theorem restLoopEvents_attempts (cfg : ControllerFlags)
    (rf : UID → RKind → Bool) (segs : List UID) :
    ∀ (scs : List StackContainer) (e : Ev), e ∈ restLoopEvents cfg rf scs segs →
      ∃ u k, e = Ev.attempt u k := by
  intro scs
  induction scs with
  | nil => intro e h; simp [restLoopEvents] at h
  | cons x rest ih =>
    intro e h
    simp only [restLoopEvents, List.filter_cons] at h
    by_cases hkx : (!(segs.contains x.uid)) = true
    · rw [if_pos hkx] at h
      simp only [List.foldr_cons] at h
      rcases List.mem_append.mp h with h | h
      · exact convergeAttempts_attempts cfg rf x.uid e h
      · exact ih e (by simpa [restLoopEvents] using h)
    · have hkx' : (!(segs.contains x.uid)) = false := by
        cases he : (!(segs.contains x.uid))
        · rfl
        · exact absurd he hkx
      rw [hkx'] at h
      simp only [Bool.false_eq_true, if_false] at h
      exact ih e (by simpa [restLoopEvents] using h)

/-! ## C5 -/

/-- C5 counterexample: with every resource kind enabled and the ingress
converge failing, the deployment (a later kind of the same stack) is in
the converge order but receives no attempt: a failed kind blocks the
remaining kinds of the same stack, contrary to the claim. -/
theorem c5_counterexample :
    (ReconcileStackResources ⟨true, true, true, true⟩
      (fun k => k == RKind.ingressMain)).2 = some RKind.ingressMain ∧
    RKind.deploymentRes ∈ stackResourceOrder ⟨true, true, true, true⟩ ∧
    RKind.deploymentRes ∉
      (ReconcileStackResources ⟨true, true, true, true⟩
        (fun k => k == RKind.ingressMain)).1 := by
  decide

/-- C5 amended: when the convergence of one resource kind of a stack
fails, the failure is evented (ReconcileStackResources returns the failing
kind) and the REMAINING kinds of that same stack are skipped: the
attempted kinds are exactly the successful prefix of the converge order
plus the failing kind; the other stacks of the same StackSet are still
converged in the same tick (each stack in the containers receives its
first converge attempt no matter which other attempts fail). -/
theorem c5_failure_scoping :
    (∀ (cfg : ControllerFlags) (fails : RKind → Bool) (k : RKind),
      (ReconcileStackResources cfg fails).2 = some k →
      fails k = true ∧
      (ReconcileStackResources cfg fails).1 =
        (stackResourceOrder cfg).takeWhile (fun j => !(fails j)) ++ [k]) ∧
    (∀ (cfg : ControllerFlags) (scs : List StackContainer) (scr : SSScript)
      (sc : StackContainer), sc ∈ scs → scr.updateFromResourcesErr = false →
      Ev.attempt sc.uid RKind.ingressMain ∈ (ReconcileStackSet cfg scs scr).1) := by
  constructor
  · intro cfg fails k h
    exact runKinds_some fails (stackResourceOrder cfg) k h
  · intro cfg scs scr sc hmem herr
    unfold ReconcileStackSet
    rw [herr]
    simp only [Bool.false_eq_true, if_false, List.cons_append,
      List.nil_append, List.mem_cons, List.mem_append]
    by_cases hcont : (scr.segments.getD []).contains sc.uid = true
    · have hany : anyStackUid sc.uid scs = true := by
        unfold anyStackUid
        exact List.any_eq_true.mpr ⟨sc, hmem, by simp⟩
      have := mem_segLoopEvents cfg scr.resourceFails scs sc.uid
        (scr.segments.getD []) hcont hany
      tauto
    · have hcont' : (scr.segments.getD []).contains sc.uid = false := by
        cases he : (scr.segments.getD []).contains sc.uid
        · rfl
        · exact absurd he hcont
      have := mem_restLoopEvents cfg scr.resourceFails
        (scr.segments.getD []) scs sc hmem hcont'
      tauto

/-- Witness for C5 amended at a concrete failing ingress and a concrete
two-stack container list. -/
theorem c5_failure_scoping_w :
    ((fun k => k == RKind.ingressMain) RKind.ingressMain = true ∧
      (ReconcileStackResources ⟨true, true, true, true⟩
        (fun k => k == RKind.ingressMain)).1 =
        (stackResourceOrder ⟨true, true, true, true⟩).takeWhile
          (fun j => !((fun k => k == RKind.ingressMain) j)) ++
          [RKind.ingressMain]) ∧
    Ev.attempt ("stack-b") RKind.ingressMain ∈
      (ReconcileStackSet ⟨true, true, true, true⟩
        [{ uid := ("stack-a") }, { uid := ("stack-b") }]
        ⟨false, false, false, some [("stack-a")],
          (fun u _ => u == ("stack-a")), (fun _ => false), false⟩).1 := by
  constructor
  · exact c5_failure_scoping.1 ⟨true, true, true, true⟩
      (fun k => k == RKind.ingressMain) RKind.ingressMain rfl
  · exact c5_failure_scoping.2 ⟨true, true, true, true⟩
      [{ uid := ("stack-a") }, { uid := ("stack-b") }]
      ⟨false, false, false, some [("stack-a")],
        (fun u _ => u == ("stack-a")), (fun _ => false), false⟩
      { uid := ("stack-b") } (by decide) rfl

/-! ## C7 -/

/-- C7 counterexample: a concrete reconciliation trace in which traffic
computation (index 2) happens before expiry marking (index 3) and before
cleanup (index 7), refuting the claimed order in which all lifecycle
decisions precede traffic computation. -/
theorem c7_counterexample :
    (ReconcileStackSet ⟨false, false, false, false⟩ []
      ⟨false, false, false, some [], (fun _ _ => false), (fun _ => false),
        false⟩).1 =
      [Ev.stage StageLabel.createStack, Ev.stage StageLabel.collectionUpdate,
        Ev.stage StageLabel.manageTraffic, Ev.stage StageLabel.markExpired,
        Ev.stage StageLabel.segments, Ev.stage StageLabel.recordSwitch,
        Ev.stage StageLabel.desiredTraffic, Ev.stage StageLabel.cleanup,
        Ev.stage StageLabel.statuses] ∧
    optIdxLt
      (stageIdx StageLabel.markExpired
        [Ev.stage StageLabel.createStack, Ev.stage StageLabel.collectionUpdate,
          Ev.stage StageLabel.manageTraffic, Ev.stage StageLabel.markExpired,
          Ev.stage StageLabel.segments, Ev.stage StageLabel.recordSwitch,
          Ev.stage StageLabel.desiredTraffic, Ev.stage StageLabel.cleanup,
          Ev.stage StageLabel.statuses])
      (stageIdx StageLabel.manageTraffic
        [Ev.stage StageLabel.createStack, Ev.stage StageLabel.collectionUpdate,
          Ev.stage StageLabel.manageTraffic, Ev.stage StageLabel.markExpired,
          Ev.stage StageLabel.segments, Ev.stage StageLabel.recordSwitch,
          Ev.stage StageLabel.desiredTraffic, Ev.stage StageLabel.cleanup,
          Ev.stage StageLabel.statuses]) = false ∧
    optIdxLt
      (stageIdx StageLabel.cleanup
        [Ev.stage StageLabel.createStack, Ev.stage StageLabel.collectionUpdate,
          Ev.stage StageLabel.manageTraffic, Ev.stage StageLabel.markExpired,
          Ev.stage StageLabel.segments, Ev.stage StageLabel.recordSwitch,
          Ev.stage StageLabel.desiredTraffic, Ev.stage StageLabel.cleanup,
          Ev.stage StageLabel.statuses])
      (stageIdx StageLabel.manageTraffic
        [Ev.stage StageLabel.createStack, Ev.stage StageLabel.collectionUpdate,
          Ev.stage StageLabel.manageTraffic, Ev.stage StageLabel.markExpired,
          Ev.stage StageLabel.segments, Ev.stage StageLabel.recordSwitch,
          Ev.stage StageLabel.desiredTraffic, Ev.stage StageLabel.cleanup,
          Ev.stage StageLabel.statuses]) = false := by
  refine ⟨rfl, by decide, by decide⟩

/-- C7 amended: within one ReconcileStackSet invocation that passes the
collected-resource update, the trace decomposes as stack creation, then
the resource-status update, then traffic computation, then expiry
marking, then segment planning, then the per-stack converge attempts,
then traffic recording and the desired-traffic write, then the cleanup
delete attempts, then the status write; the converge block holds only
converge attempts and the cleanup block only delete attempts. -/
theorem c7_stage_order (cfg : ControllerFlags) (scs : List StackContainer)
    (scr : SSScript) (h : scr.updateFromResourcesErr = false) :
    ∃ conv cleanupEvs : List Ev,
      (ReconcileStackSet cfg scs scr).1 =
        [Ev.stage StageLabel.createStack, Ev.stage StageLabel.collectionUpdate,
          Ev.stage StageLabel.manageTraffic, Ev.stage StageLabel.markExpired,
          Ev.stage StageLabel.segments] ++ conv ++
        [Ev.stage StageLabel.recordSwitch, Ev.stage StageLabel.desiredTraffic,
          Ev.stage StageLabel.cleanup] ++ cleanupEvs ++
        [Ev.stage StageLabel.statuses] ∧
      (∀ e ∈ conv, ∃ u k, e = Ev.attempt u k) ∧
      (∀ e ∈ cleanupEvs, ∃ u, e = Ev.delAttempt u) := by
  refine ⟨segLoopEvents cfg scr.resourceFails scs (scr.segments.getD []) ++
      restLoopEvents cfg scr.resourceFails scs (scr.segments.getD []),
    (CleanupOldStacks scr.deleteFails scs).1.map Ev.delAttempt, ?_, ?_, ?_⟩
  · unfold ReconcileStackSet
    rw [h]
    dsimp only
    simp [List.append_assoc]
  · intro e he
    rcases List.mem_append.mp he with he | he
    · exact segLoopEvents_attempts cfg scr.resourceFails scs _ e he
    · exact restLoopEvents_attempts cfg scr.resourceFails _ scs e he
  · intro e he
    obtain ⟨u, _, rfl⟩ := List.mem_map.mp he
    exact ⟨u, rfl⟩

/-- Witness for C7 amended at a concrete invocation with one pending
stack. -/
theorem c7_stage_order_w :
    ∃ conv cleanupEvs : List Ev,
      (ReconcileStackSet ⟨false, false, false, false⟩
        [{ uid := ("stack-a"), pendingRemoval := true }]
        ⟨false, false, false, some [], (fun _ _ => false), (fun _ => false),
          false⟩).1 =
        [Ev.stage StageLabel.createStack, Ev.stage StageLabel.collectionUpdate,
          Ev.stage StageLabel.manageTraffic, Ev.stage StageLabel.markExpired,
          Ev.stage StageLabel.segments] ++ conv ++
        [Ev.stage StageLabel.recordSwitch, Ev.stage StageLabel.desiredTraffic,
          Ev.stage StageLabel.cleanup] ++ cleanupEvs ++
        [Ev.stage StageLabel.statuses] ∧
      (∀ e ∈ conv, ∃ u k, e = Ev.attempt u k) ∧
      (∀ e ∈ cleanupEvs, ∃ u, e = Ev.delAttempt u) := by
  exact c7_stage_order ⟨false, false, false, false⟩
    [{ uid := ("stack-a"), pendingRemoval := true }]
    ⟨false, false, false, some [], (fun _ _ => false), (fun _ => false),
      false⟩ rfl

/-! ## C8 -/

theorem setStackAtUid_eq (uid : UID) (upd : StackContainer → StackContainer) :
    ∀ (p : List StackContainer) (q : List StackContainer) (sc : StackContainer),
      (∀ x ∈ p, (x.uid == uid) = false) → (sc.uid == uid) = true →
      setStackAtUid uid upd (p ++ sc :: q) = p ++ upd sc :: q := by
  intro p
  induction p with
  | nil =>
    intro q sc _ hsc
    simp [setStackAtUid, hsc]
  | cons x rest ih =>
    intro q sc hp hsc
    have hx : (x.uid == uid) = false := hp x (by simp)
    simp only [List.cons_append, setStackAtUid, hx, Bool.false_eq_true,
      if_false]
    exact congrArg (fun l => x :: l) (ih q sc (fun y hy => hp y (by simp [hy])) hsc)

theorem setStackAtDeploy_eq (uid : UID) (upd : StackContainer → StackContainer) :
    ∀ (p : List StackContainer) (q : List StackContainer) (sc : StackContainer),
      (∀ x ∈ p, deploymentUidIs uid x = false) → deploymentUidIs uid sc = true →
      setStackAtDeploy uid upd (p ++ sc :: q) = p ++ upd sc :: q := by
  intro p
  induction p with
  | nil =>
    intro q sc _ hsc
    simp [setStackAtDeploy, hsc]
  | cons x rest ih =>
    intro q sc hp hsc
    have hx : deploymentUidIs uid x = false := hp x (by simp)
    simp only [List.cons_append, setStackAtDeploy, hx, Bool.false_eq_true,
      if_false]
    exact congrArg (fun l => x :: l) (ih q sc (fun y hy => hp y (by simp [hy])) hsc)

theorem attachByUID_none (uid : UID) (upd : StackContainer → StackContainer) :
    ∀ (cs : List StackSetContainer),
      (∀ x ∈ cs, anyStackUid uid x.stackContainers = false ∧
        anyDeployUid uid x.stackContainers = false) →
      attachByUID uid upd cs = cs := by
  intro cs
  induction cs with
  | nil => intro _; rfl
  | cons x rest ih =>
    intro h
    obtain ⟨h1, h2⟩ := h x (by simp)
    simp only [attachByUID, h1, h2, Bool.false_eq_true, if_false]
    rw [ih (fun y hy => h y (by simp [hy]))]

theorem attachByUID_direct (uid : UID) (upd : StackContainer → StackContainer) :
    ∀ (pre : List StackSetContainer) (ssc : StackSetContainer)
      (post : List StackSetContainer),
      (∀ x ∈ pre, anyStackUid uid x.stackContainers = false ∧
        anyDeployUid uid x.stackContainers = false) →
      anyStackUid uid ssc.stackContainers = true →
      attachByUID uid upd (pre ++ ssc :: post) =
        pre ++ { ssc with stackContainers := setStackAtUid uid upd ssc.stackContainers } :: post := by
  intro pre
  induction pre with
  | nil =>
    intro ssc post _ hd
    simp [attachByUID, hd]
  | cons x rest ih =>
    intro ssc post hp hd
    obtain ⟨h1, h2⟩ := hp x (by simp)
    simp only [List.cons_append, attachByUID, h1, h2, Bool.false_eq_true,
      if_false]
    exact congrArg (fun l => x :: l) (ih ssc post (fun y hy => hp y (by simp [hy])) hd)

theorem attachByUID_deploy (uid : UID) (upd : StackContainer → StackContainer) :
    ∀ (pre : List StackSetContainer) (ssc : StackSetContainer)
      (post : List StackSetContainer),
      (∀ x ∈ pre, anyStackUid uid x.stackContainers = false ∧
        anyDeployUid uid x.stackContainers = false) →
      anyStackUid uid ssc.stackContainers = false →
      anyDeployUid uid ssc.stackContainers = true →
      attachByUID uid upd (pre ++ ssc :: post) =
        pre ++ { ssc with stackContainers := setStackAtDeploy uid upd ssc.stackContainers } :: post := by
  intro pre
  induction pre with
  | nil =>
    intro ssc post _ hnd hd
    simp [attachByUID, hnd, hd]
  | cons x rest ih =>
    intro ssc post hp hnd hd
    obtain ⟨h1, h2⟩ := hp x (by simp)
    simp only [List.cons_append, attachByUID, h1, h2, Bool.false_eq_true,
      if_false]
    exact congrArg (fun l => x :: l) (ih ssc post (fun y hy => hp y (by simp [hy])) hnd hd)

/-- C8: for services and autoscalers, (1) an object whose single owner UID
matches no stack container key and no collected deployment is attached
nowhere; (2) when the owner UID matches no stack container key, the
object is attached through the historical fallback to the first stack
whose collected deployment carries that UID; (3) the direct stack lookup
is checked before the deployment fallback: when a stackset holds a stack
container keyed by the UID, that stack receives the object, with no
condition on any deployment of the same stackset; and the fallback
resolves to precisely the first deployment-matching stack container. -/
theorem c8_deployment_fallback :
    (∀ (svc : Service) (uid : UID) (cs : List StackSetContainer),
      getOwnerUID svc.meta = some uid →
      (∀ x ∈ cs, anyStackUid uid x.stackContainers = false ∧
        anyDeployUid uid x.stackContainers = false) →
      collectServiceOne svc cs = cs) ∧
    (∀ (hpa : HPA) (uid : UID) (cs : List StackSetContainer),
      getOwnerUID hpa.meta = some uid →
      (∀ x ∈ cs, anyStackUid uid x.stackContainers = false ∧
        anyDeployUid uid x.stackContainers = false) →
      collectHPAOne hpa cs = cs) ∧
    (∀ (svc : Service) (uid : UID) (pre post : List StackSetContainer)
      (ssc : StackSetContainer),
      getOwnerUID svc.meta = some uid →
      (∀ x ∈ pre, anyStackUid uid x.stackContainers = false ∧
        anyDeployUid uid x.stackContainers = false) →
      anyStackUid uid ssc.stackContainers = false →
      anyDeployUid uid ssc.stackContainers = true →
      collectServiceOne svc (pre ++ ssc :: post) =
        pre ++ { ssc with stackContainers := setStackAtDeploy uid (putService svc) ssc.stackContainers } :: post) ∧
    (∀ (hpa : HPA) (uid : UID) (pre post : List StackSetContainer)
      (ssc : StackSetContainer),
      getOwnerUID hpa.meta = some uid →
      (∀ x ∈ pre, anyStackUid uid x.stackContainers = false ∧
        anyDeployUid uid x.stackContainers = false) →
      anyStackUid uid ssc.stackContainers = false →
      anyDeployUid uid ssc.stackContainers = true →
      collectHPAOne hpa (pre ++ ssc :: post) =
        pre ++ { ssc with stackContainers := setStackAtDeploy uid (putHPA hpa) ssc.stackContainers } :: post) ∧
    (∀ (svc : Service) (uid : UID) (pre post : List StackSetContainer)
      (ssc : StackSetContainer),
      getOwnerUID svc.meta = some uid →
      (∀ x ∈ pre, anyStackUid uid x.stackContainers = false ∧
        anyDeployUid uid x.stackContainers = false) →
      anyStackUid uid ssc.stackContainers = true →
      collectServiceOne svc (pre ++ ssc :: post) =
        pre ++ { ssc with stackContainers := setStackAtUid uid (putService svc) ssc.stackContainers } :: post) ∧
    (∀ (hpa : HPA) (uid : UID) (pre post : List StackSetContainer)
      (ssc : StackSetContainer),
      getOwnerUID hpa.meta = some uid →
      (∀ x ∈ pre, anyStackUid uid x.stackContainers = false ∧
        anyDeployUid uid x.stackContainers = false) →
      anyStackUid uid ssc.stackContainers = true →
      collectHPAOne hpa (pre ++ ssc :: post) =
        pre ++ { ssc with stackContainers := setStackAtUid uid (putHPA hpa) ssc.stackContainers } :: post) ∧
    (∀ (uid : UID) (upd : StackContainer → StackContainer)
      (p q : List StackContainer) (sc : StackContainer),
      (∀ x ∈ p, deploymentUidIs uid x = false) → deploymentUidIs uid sc = true →
      setStackAtDeploy uid upd (p ++ sc :: q) = p ++ upd sc :: q) := by
  refine ⟨?_, ?_, ?_, ?_, ?_, ?_, ?_⟩
  · intro svc uid cs howner hno
    unfold collectServiceOne
    rw [howner]
    exact attachByUID_none uid (putService svc) cs hno
  · intro hpa uid cs howner hno
    unfold collectHPAOne
    rw [howner]
    exact attachByUID_none uid (putHPA hpa) cs hno
  · intro svc uid pre post ssc howner hpre hnd hd
    unfold collectServiceOne
    rw [howner]
    exact attachByUID_deploy uid (putService svc) pre ssc post hpre hnd hd
  · intro hpa uid pre post ssc howner hpre hnd hd
    unfold collectHPAOne
    rw [howner]
    exact attachByUID_deploy uid (putHPA hpa) pre ssc post hpre hnd hd
  · intro svc uid pre post ssc howner hpre hd
    unfold collectServiceOne
    rw [howner]
    exact attachByUID_direct uid (putService svc) pre ssc post hpre hd
  · intro hpa uid pre post ssc howner hpre hd
    unfold collectHPAOne
    rw [howner]
    exact attachByUID_direct uid (putHPA hpa) pre ssc post hpre hd
  · intro uid upd p q sc hp hsc
    exact setStackAtDeploy_eq uid upd p q sc hp hsc

/-- Witness for C8 at concrete containers: a service owned by a
deployment UID lands on the deployment-owning stack of the second
stackset; an autoscaler owned directly by a stack lands on that stack
even though a sibling deployment carries the same UID. -/
theorem c8_deployment_fallback_w :
    collectServiceOne ⟨⟨("svc"), ("svc-uid"), [("dep-1")]⟩⟩
      [⟨("ss1"), none, [{ uid := ("stack-1") }]⟩,
        ⟨("ss2"), none,
          [{ uid := ("stack-2"),
             resources := { deployment := some ⟨⟨("dn"), ("dep-1"), [("stack-2")]⟩⟩ } }]⟩] =
      [⟨("ss1"), none, [{ uid := ("stack-1") }]⟩,
        ⟨("ss2"), none,
          setStackAtDeploy ("dep-1") (putService ⟨⟨("svc"), ("svc-uid"), [("dep-1")]⟩⟩)
            [{ uid := ("stack-2"),
               resources := { deployment := some ⟨⟨("dn"), ("dep-1"), [("stack-2")]⟩⟩ } }]⟩] ∧
    collectHPAOne ⟨⟨("hpa"), ("hpa-uid"), [("stack-3")]⟩⟩
      [⟨("ss3"), none,
        [{ uid := ("stack-3") },
          { uid := ("stack-4"),
            resources := { deployment := some ⟨⟨("dn2"), ("stack-3"), [("stack-4")]⟩⟩ } }]⟩] =
      [⟨("ss3"), none,
        setStackAtUid ("stack-3") (putHPA ⟨⟨("hpa"), ("hpa-uid"), [("stack-3")]⟩⟩)
          [{ uid := ("stack-3") },
            { uid := ("stack-4"),
              resources := { deployment := some ⟨⟨("dn2"), ("stack-3"), [("stack-4")]⟩⟩ } }]⟩] := by
  constructor
  · exact c8_deployment_fallback.2.2.1 ⟨⟨("svc"), ("svc-uid"), [("dep-1")]⟩⟩
      ("dep-1") [⟨("ss1"), none, [{ uid := ("stack-1") }]⟩] []
      ⟨("ss2"), none,
        [{ uid := ("stack-2"),
           resources := { deployment := some ⟨⟨("dn"), ("dep-1"), [("stack-2")]⟩⟩ } }]⟩
      rfl (by decide) (by decide) (by decide)
  · exact c8_deployment_fallback.2.2.2.2.2.1 ⟨⟨("hpa"), ("hpa-uid"), [("stack-3")]⟩⟩
      ("stack-3") [] []
      ⟨("ss3"), none,
        [{ uid := ("stack-3") },
          { uid := ("stack-4"),
            resources := { deployment := some ⟨⟨("dn2"), ("stack-3"), [("stack-4")]⟩⟩ } }]⟩
      rfl (by decide) (by decide)

/-! ## C3 -/

theorem getLast?_cons_of_some {α : Type} {l : List α} {x : α} (a : α)
    (h : l.getLast? = some x) : (a :: l).getLast? = some x := by
  cases l with
  | nil => simp at h
  | cons b t => rw [List.getLast?_cons_cons]; exact h

/-- The retry-loop invariants, proved for an arbitrary value of the retry
flag by one induction on the environment script. -/
theorem retryUpdateRun_invariants (computed : Nat) :
    ∀ (script : List EnvStep) (held : Nat) (retry : Bool),
      (∀ b c o out,
        LoopEv.wroteStatus b c o out ∈ (retryUpdateRun computed held retry script).1 →
        c = computed ∧ ¬ (o = computed)) ∧
      ((retryUpdateRun computed held retry script).2 = LoopResult.noDiff →
        ∃ b, (retryUpdateRun computed held retry script).1.getLast? =
          some (LoopEv.skipNoDiff b computed computed)) ∧
      (∀ e, (retryUpdateRun computed held retry script).2 = LoopResult.failed e →
        ¬ (e = ApiErr.conflict)) ∧
      ((retryUpdateRun computed held retry script).2 = LoopResult.wrote →
        ∃ b o, (retryUpdateRun computed held retry script).1.getLast? =
          some (LoopEv.wroteStatus b computed o none)) ∧
      (retry = true → ∀ ev ∈ (retryUpdateRun computed held retry script).1,
        evFromFetch ev = true) := by
  intro script
  induction script with
  | nil =>
    intro held retry
    refine ⟨?_, ?_, ?_, ?_, ?_⟩
    · intro b c o out h
      simp [retryUpdateRun] at h
    · intro h
      simp [retryUpdateRun] at h
    · intro e h
      simp [retryUpdateRun] at h
    · intro h
      simp [retryUpdateRun] at h
    · intro _ ev h
      simp [retryUpdateRun] at h
  | cons step rest ih =>
    intro held retry
    cases retry with
    | false =>
      by_cases hco : (computed == held) = true
      · have heq : retryUpdateRun computed held false (step :: rest) =
            ([LoopEv.skipNoDiff false computed held], LoopResult.noDiff) := by
          simp [retryUpdateRun, hco]
        have hch : held = computed := (beq_iff_eq.mp hco).symm
        rw [heq]
        refine ⟨?_, ?_, ?_, ?_, ?_⟩
        · intro b c o out h
          simp at h
        · intro _
          exact ⟨false, by rw [hch]; rfl⟩
        · intro e h
          simp at h
        · intro h
          simp at h
        · intro h
          exact absurd h (by simp)
      · have hco' : (computed == held) = false := by
          cases hx : (computed == held)
          · rfl
          · exact absurd hx hco
        have hoc : ¬ (held = computed) := by
          intro hc
          rw [hc] at hco'
          simp at hco'
        cases hout : step.updateOutcome with
        | none =>
          have heq : retryUpdateRun computed held false (step :: rest) =
              ([LoopEv.wroteStatus false computed held none], LoopResult.wrote) := by
            simp [retryUpdateRun, hco', hout]
          rw [heq]
          refine ⟨?_, ?_, ?_, ?_, ?_⟩
          · intro b c o out h
            simp only [List.mem_singleton, LoopEv.wroteStatus.injEq] at h
            obtain ⟨_, hc, ho, _⟩ := h
            exact ⟨hc, by rw [ho]; exact hoc⟩
          · intro h
            simp at h
          · intro e h
            simp at h
          · intro _
            exact ⟨false, held, rfl⟩
          · intro h
            exact absurd h (by simp)
        | some e =>
          cases e with
          | conflict =>
            have heq : retryUpdateRun computed held false (step :: rest) =
                (LoopEv.wroteStatus false computed held (some ApiErr.conflict) ::
                    (retryUpdateRun computed held true rest).1,
                  (retryUpdateRun computed held true rest).2) := by
              simp [retryUpdateRun, hco', hout]
            rw [heq]
            obtain ⟨ih1, ih2, ih3, ih4, ih5⟩ := ih held true
            refine ⟨?_, ?_, ?_, ?_, ?_⟩
            · intro b c o out h
              rcases List.mem_cons.mp h with h | h
              · injection h with h1 h2 h3 h4
                exact ⟨h2, by rw [h3]; exact hoc⟩
              · exact ih1 b c o out h
            · intro h
              obtain ⟨b, hb⟩ := ih2 h
              exact ⟨b, getLast?_cons_of_some _ hb⟩
            · intro e h
              exact ih3 e h
            · intro h
              obtain ⟨b, o, hb⟩ := ih4 h
              exact ⟨b, o, getLast?_cons_of_some _ hb⟩
            · intro h
              exact absurd h (by simp)
          | otherError =>
            have heq : retryUpdateRun computed held false (step :: rest) =
                ([LoopEv.wroteStatus false computed held (some ApiErr.otherError)],
                  LoopResult.failed ApiErr.otherError) := by
              simp [retryUpdateRun, hco', hout]
            rw [heq]
            refine ⟨?_, ?_, ?_, ?_, ?_⟩
            · intro b c o out h
              simp only [List.mem_singleton, LoopEv.wroteStatus.injEq] at h
              obtain ⟨_, hc, ho, _⟩ := h
              exact ⟨hc, by rw [ho]; exact hoc⟩
            · intro h
              simp at h
            · intro e h
              have : ApiErr.otherError = e := by injection h
              rw [← this]
              simp
            · intro h
              simp at h
            · intro h
              exact absurd h (by simp)
    | true =>
      cases hg : step.getResult with
      | err e =>
        cases e with
        | conflict =>
          have heq : retryUpdateRun computed held true (step :: rest) =
              (LoopEv.fetchFailed ApiErr.conflict ::
                  (retryUpdateRun computed held true rest).1,
                (retryUpdateRun computed held true rest).2) := by
            simp [retryUpdateRun, hg]
          rw [heq]
          obtain ⟨ih1, ih2, ih3, ih4, ih5⟩ := ih held true
          refine ⟨?_, ?_, ?_, ?_, ?_⟩
          · intro b c o out h
            rcases List.mem_cons.mp h with h | h
            · exact absurd h (by simp)
            · exact ih1 b c o out h
          · intro h
            obtain ⟨b, hb⟩ := ih2 h
            exact ⟨b, getLast?_cons_of_some _ hb⟩
          · intro e h
            exact ih3 e h
          · intro h
            obtain ⟨b, o, hb⟩ := ih4 h
            exact ⟨b, o, getLast?_cons_of_some _ hb⟩
          · intro _ ev hev
            rcases List.mem_cons.mp hev with hev | hev
            · rw [hev]; rfl
            · exact ih5 rfl ev hev
        | otherError =>
          have heq : retryUpdateRun computed held true (step :: rest) =
              ([LoopEv.fetchFailed ApiErr.otherError],
                LoopResult.failed ApiErr.otherError) := by
            simp [retryUpdateRun, hg]
          rw [heq]
          refine ⟨?_, ?_, ?_, ?_, ?_⟩
          · intro b c o out h
            simp at h
          · intro h
            simp at h
          · intro e h
            have : ApiErr.otherError = e := by injection h
            rw [← this]
            simp
          · intro h
            simp at h
          · intro _ ev hev
            rcases List.mem_singleton.mp hev with rfl
            rfl
      | ok obj =>
        by_cases hco : (computed == obj) = true
        · have heq : retryUpdateRun computed held true (step :: rest) =
              ([LoopEv.skipNoDiff true computed obj], LoopResult.noDiff) := by
            simp [retryUpdateRun, hg, hco]
          have hch : obj = computed := (beq_iff_eq.mp hco).symm
          rw [heq]
          refine ⟨?_, ?_, ?_, ?_, ?_⟩
          · intro b c o out h
            simp at h
          · intro _
            exact ⟨true, by rw [hch]; rfl⟩
          · intro e h
            simp at h
          · intro h
            simp at h
          · intro _ ev hev
            rcases List.mem_singleton.mp hev with rfl
            rfl
        · have hco' : (computed == obj) = false := by
            cases hx : (computed == obj)
            · rfl
            · exact absurd hx hco
          have hoc : ¬ (obj = computed) := by
            intro hc
            rw [hc] at hco'
            simp at hco'
          cases hout : step.updateOutcome with
          | none =>
            have heq : retryUpdateRun computed held true (step :: rest) =
                ([LoopEv.wroteStatus true computed obj none], LoopResult.wrote) := by
              simp [retryUpdateRun, hg, hco', hout]
            rw [heq]
            refine ⟨?_, ?_, ?_, ?_, ?_⟩
            · intro b c o out h
              simp only [List.mem_singleton, LoopEv.wroteStatus.injEq] at h
              obtain ⟨_, hc, ho, _⟩ := h
              exact ⟨hc, by rw [ho]; exact hoc⟩
            · intro h
              simp at h
            · intro e h
              simp at h
            · intro _
              exact ⟨true, obj, rfl⟩
            · intro _ ev hev
              rcases List.mem_singleton.mp hev with rfl
              rfl
          | some e =>
            cases e with
            | conflict =>
              have heq : retryUpdateRun computed held true (step :: rest) =
                  (LoopEv.wroteStatus true computed obj (some ApiErr.conflict) ::
                      (retryUpdateRun computed obj true rest).1,
                    (retryUpdateRun computed obj true rest).2) := by
                simp [retryUpdateRun, hg, hco', hout]
              rw [heq]
              obtain ⟨ih1, ih2, ih3, ih4, ih5⟩ := ih obj true
              refine ⟨?_, ?_, ?_, ?_, ?_⟩
              · intro b c o out h
                rcases List.mem_cons.mp h with h | h
                · injection h with h1 h2 h3 h4
                  exact ⟨h2, by rw [h3]; exact hoc⟩
                · exact ih1 b c o out h
              · intro h
                obtain ⟨b, hb⟩ := ih2 h
                exact ⟨b, getLast?_cons_of_some _ hb⟩
              · intro e h
                exact ih3 e h
              · intro h
                obtain ⟨b, o, hb⟩ := ih4 h
                exact ⟨b, o, getLast?_cons_of_some _ hb⟩
              · intro _ ev hev
                rcases List.mem_cons.mp hev with hev | hev
                · rw [hev]; rfl
                · exact ih5 rfl ev hev
            | otherError =>
              have heq : retryUpdateRun computed held true (step :: rest) =
                  ([LoopEv.wroteStatus true computed obj (some ApiErr.otherError)],
                    LoopResult.failed ApiErr.otherError) := by
                simp [retryUpdateRun, hg, hco', hout]
              rw [heq]
              refine ⟨?_, ?_, ?_, ?_, ?_⟩
              · intro b c o out h
                simp only [List.mem_singleton, LoopEv.wroteStatus.injEq] at h
                obtain ⟨_, hc, ho, _⟩ := h
                exact ⟨hc, by rw [ho]; exact hoc⟩
              · intro h
                simp at h
              · intro e h
                have : ApiErr.otherError = e := by injection h
                rw [← this]
                simp
              · intro h
                simp at h
              · intro _ ev hev
                rcases List.mem_singleton.mp hev with rfl
                rfl

/-- Every iteration after the first inspects a freshly fetched object:
the first call of the update closure runs with the retry flag off, every
later one with it on. -/
theorem retryUpdateRun_tail_fetched (computed held : Nat)
    (script : List EnvStep) :
    ∀ ev ∈ ((retryUpdateRun computed held false script).1).tail,
      evFromFetch ev = true := by
  cases script with
  | nil =>
    intro ev h
    simp [retryUpdateRun] at h
  | cons step rest =>
    intro ev h
    by_cases hco : (computed == held) = true
    · have heq : retryUpdateRun computed held false (step :: rest) =
          ([LoopEv.skipNoDiff false computed held], LoopResult.noDiff) := by
        simp [retryUpdateRun, hco]
      rw [heq] at h
      simp at h
    · have hco' : (computed == held) = false := by
        cases hx : (computed == held)
        · rfl
        · exact absurd hx hco
      cases hout : step.updateOutcome with
      | none =>
        have heq : retryUpdateRun computed held false (step :: rest) =
            ([LoopEv.wroteStatus false computed held none], LoopResult.wrote) := by
          simp [retryUpdateRun, hco', hout]
        rw [heq] at h
        simp at h
      | some e =>
        cases e with
        | conflict =>
          have heq : retryUpdateRun computed held false (step :: rest) =
              (LoopEv.wroteStatus false computed held (some ApiErr.conflict) ::
                  (retryUpdateRun computed held true rest).1,
                (retryUpdateRun computed held true rest).2) := by
            simp [retryUpdateRun, hco', hout]
          rw [heq] at h
          exact (retryUpdateRun_invariants computed rest held true).2.2.2.2 rfl ev h
        | otherError =>
          have heq : retryUpdateRun computed held false (step :: rest) =
              ([LoopEv.wroteStatus false computed held (some ApiErr.otherError)],
                LoopResult.failed ApiErr.otherError) := by
            simp [retryUpdateRun, hco', hout]
          rw [heq] at h
          simp at h

/-- Every write issued anywhere in ReconcileStatuses writes a status that
differs from the one on the object in hand. -/
theorem ReconcileStatuses_writes_only_diff :
    ∀ (items : List StatusItem) (b : Bool) (c o : Nat) (out : Option ApiErr),
      LoopEv.wroteStatus b c o out ∈ (ReconcileStatuses items).1 → ¬ (o = c) := by
  intro items
  induction items with
  | nil =>
    intro b c o out h
    simp [ReconcileStatuses] at h
  | cons it rest ih =>
    intro b c o out h
    have hdiff : LoopEv.wroteStatus b c o out ∈
        (retryUpdateRun it.computed it.held false it.script).1 → ¬ (o = c) := by
      intro hm
      obtain ⟨hc, hoc⟩ :=
        (retryUpdateRun_invariants it.computed it.script it.held false).1 b c o out hm
      rw [hc]
      exact hoc
    unfold ReconcileStatuses at h
    dsimp only at h
    cases hres : (retryUpdateRun it.computed it.held false it.script).2 with
    | wrote =>
      rw [hres] at h
      dsimp only at h
      rcases List.mem_append.mp h with h | h
      · exact hdiff h
      · exact ih b c o out h
    | noDiff =>
      rw [hres] at h
      dsimp only at h
      rcases List.mem_append.mp h with h | h
      · exact hdiff h
      · exact ih b c o out h
    | failed e =>
      rw [hres] at h
      dsimp only at h
      exact hdiff h
    | fuelOut =>
      rw [hres] at h
      dsimp only at h
      exact hdiff h

/-- C3: the status retry loop writes only when the computed status differs
from the status on the object in hand (first conjunct, and the last
conjunct lifts this to every write of ReconcileStatuses); when it
terminates reporting no difference, the final inspected object already
carries the computed status and no write was issued in that iteration;
any error it terminates with is a non-conflict error (conflicts are always
retried); when it terminates having written, the final action is a
successful write; and every iteration after the first re-fetches the
latest object and recomputes the difference against it. -/
theorem c3_status_write_retry (computed held : Nat) (script : List EnvStep) :
    (∀ b c o out,
      LoopEv.wroteStatus b c o out ∈ (retryUpdateRun computed held false script).1 →
      ¬ (o = c)) ∧
    ((retryUpdateRun computed held false script).2 = LoopResult.noDiff →
      ∃ b, (retryUpdateRun computed held false script).1.getLast? =
        some (LoopEv.skipNoDiff b computed computed)) ∧
    (∀ e, (retryUpdateRun computed held false script).2 = LoopResult.failed e →
      ¬ (e = ApiErr.conflict)) ∧
    ((retryUpdateRun computed held false script).2 = LoopResult.wrote →
      ∃ b o, (retryUpdateRun computed held false script).1.getLast? =
        some (LoopEv.wroteStatus b computed o none)) ∧
    (∀ ev ∈ ((retryUpdateRun computed held false script).1).tail,
      evFromFetch ev = true) ∧
    (∀ (items : List StatusItem) (b : Bool) (c o : Nat) (out : Option ApiErr),
      LoopEv.wroteStatus b c o out ∈ (ReconcileStatuses items).1 → ¬ (o = c)) := by
  obtain ⟨i1, i2, i3, i4, _⟩ :=
    retryUpdateRun_invariants computed script held false
  refine ⟨?_, i2, i3, i4, retryUpdateRun_tail_fetched computed held script, ?_⟩
  · intro b c o out h
    obtain ⟨hc, hoc⟩ := i1 b c o out h
    rw [hc]
    exact hoc
  · exact ReconcileStatuses_writes_only_diff

/-- Witness for C3 at concrete runs: a conflicted write followed by a
fresh fetch that already carries the computed status stops with no
further write; a successful write ends the loop; a non-conflict write
error ends the loop; every recorded write had a differing status; every
iteration after the first is fetch-sourced. -/
theorem c3_status_write_retry_w :
    ¬ ((0 : Nat) = (1 : Nat)) ∧
    (∃ b, (retryUpdateRun 1 0 false
        [⟨GetResult.ok 0, some ApiErr.conflict⟩,
          ⟨GetResult.ok 1, none⟩]).1.getLast? =
      some (LoopEv.skipNoDiff b 1 1)) ∧
    ¬ (ApiErr.otherError = ApiErr.conflict) ∧
    (∃ b o, (retryUpdateRun 1 0 false [⟨GetResult.ok 0, none⟩]).1.getLast? =
      some (LoopEv.wroteStatus b 1 o none)) ∧
    evFromFetch (LoopEv.skipNoDiff true 1 1) = true ∧
    ¬ ((0 : Nat) = (1 : Nat)) := by
  refine ⟨?_, ?_, ?_, ?_, ?_, ?_⟩
  · exact (c3_status_write_retry 1 0
      [⟨GetResult.ok 0, some ApiErr.conflict⟩, ⟨GetResult.ok 1, none⟩]).1
      false 1 0 (some ApiErr.conflict) (by decide)
  · exact (c3_status_write_retry 1 0
      [⟨GetResult.ok 0, some ApiErr.conflict⟩, ⟨GetResult.ok 1, none⟩]).2.1
      (by decide)
  · exact (c3_status_write_retry 1 0
      [⟨GetResult.ok 0, some ApiErr.otherError⟩]).2.2.1 ApiErr.otherError
      (by decide)
  · exact (c3_status_write_retry 1 0 [⟨GetResult.ok 0, none⟩]).2.2.2.1
      (by decide)
  · exact (c3_status_write_retry 1 0
      [⟨GetResult.ok 0, some ApiErr.conflict⟩, ⟨GetResult.ok 1, none⟩]).2.2.2.2.1
      (LoopEv.skipNoDiff true 1 1) (by decide)
  · exact (c3_status_write_retry 1 0 [⟨GetResult.ok 0, none⟩]).2.2.2.2.2
      [⟨0, 1, [⟨GetResult.ok 0, none⟩]⟩] false 1 0 none (by decide)

end StacksetController
